import Mathlib

/-!
Verification of the iterative convergence driver (`Iterate.execute` in
`openmdao.lib/src/openmdao/lib/drivers/iterate.py`) and of the hierarchical
variable tree (`VariableTree` in `openmdao.main/src/openmdao/main/vartree.py`),
shallowly embedded in Lean.

Scalar values carried by the feedback loop are modelled over an arbitrary
linearly ordered additive commutative group `α` (the Python code uses floats;
every operation it performs on them is subtraction, absolute value and a
strict comparison).  Concrete instantiations below use `ℤ` and `ℚ`.
-/

namespace Spec2Proof

/-! ### Convergence driver (`iterate.py`)

The external workflow together with the two binding endpoints is modelled as
an abstract environment over a state type `σ`:
`runIteration` is `self.run_iteration()` (one pass of the workflow),
`evalEnd` is `self.loop_end.evaluate()` (read the feedback sink),
`setStart` is `self.loop_start.set(v)` (write the feedback source).
-/

structure Env (α : Type) (σ : Type) where
  runIteration : σ → σ
  evalEnd : σ → α
  setStart : α → σ → σ

/-- Possible outcomes of `Iterate.execute`.  Each terminal constructor
carries the value of `self.history` after termination, the value of
`self.current_iteration`, and the final external state.  `normal` is a
normal return (convergence), `stopRequested` is the `RunStopped` raise,
`maxIterExceeded` is the `RuntimeError` raise at the iteration budget.
`fuelOut` is an artifact of the fuel-based encoding of the `while` loop;
it is unreachable whenever the fuel is at least `max_iteration ≥ 1`,
because the max-iteration check raises before the fuel can run out. -/
inductive ExecResult (α : Type) (σ : Type) where
  | normal (history : List α) (iter : ℕ) (st : σ)
  | stopRequested (history : List α) (iter : ℕ) (st : σ)
  | maxIterExceeded (history : List α) (iter : ℕ) (st : σ)
  | fuelOut
deriving DecidableEq

variable {α : Type} [LinearOrderedAddCommGroup α] {σ : Type}

/-- The `while unconverged:` loop of `Iterate.execute`.  `stop k` models the
value of the externally settable flag `self._stop` as observed by the
top-of-loop check of the pass whose entry value of `current_iteration` is
`k` (the counter is incremented exactly once per pass, so it indexes loop
entries).  `prev` models the value of `self.history` on entry to
`execute` — the loop assigns `self.history` only on the max-iteration raise
and on the normal exit; the stop raise leaves it untouched.  `hist` is the
local working array `history = zeros(max_iteration)` and `curIter` is
`self.current_iteration`.  The Python comparison
`self.current_iteration >= self.max_iteration - 1` is over unbounded ints;
for `maxIter ≥ 1` the truncated subtraction below agrees with it exactly. -/
def iterLoop (env : Env α σ) (maxIter : ℕ) (tolerance : α) (stop : ℕ → Bool)
    (prev : List α) : ℕ → List α → ℕ → σ → ExecResult α σ
  | 0, _, _, _ => .fuelOut
  | fuel + 1, hist, curIter, s =>
    if stop curIter then
      .stopRequested prev curIter s
    else if maxIter - 1 ≤ curIter then
      .maxIterExceeded (hist.take (curIter + 1)) curIter s
    else
      let val0 := hist.getD curIter 0
      let s1 := env.runIteration (env.setStart val0 s)
      let hist1 := hist.set (curIter + 1) (env.evalEnd s1)
      let val1 := hist1.getD (curIter + 1) 0
      if |val1 - val0| < tolerance then
        .normal (hist1.take (curIter + 2)) (curIter + 1) s1
      else
        iterLoop env maxIter tolerance stop prev fuel hist1 (curIter + 1) s1

/-- `Iterate.execute`: one unconditional baseline run of the workflow
(`self.run_iteration()` for self-consistency), record
`history[0] = self.loop_end.evaluate()` into the freshly zeroed working
array, then enter the convergence loop.  The fuel `maxIter` is enough for
the loop to reach one of its three exits whenever `maxIter ≥ 1`. -/
def execute (env : Env α σ) (maxIter : ℕ) (tolerance : α) (stop : ℕ → Bool)
    (prev : List α) (s : σ) : ExecResult α σ :=
  let s0 := env.runIteration s
  let hist0 := (List.replicate maxIter (0 : α)).set 0 (env.evalEnd s0)
  iterLoop env maxIter tolerance stop prev maxIter hist0 0 s0

/-- Wrap an environment so that the state also counts how many times the
workflow has been executed (how often `run_iteration` was called). -/
def withCount (env : Env α σ) : Env α (σ × ℕ) where
  runIteration p := (env.runIteration p.1, p.2 + 1)
  evalEnd p := env.evalEnd p.1
  setStart v p := (env.setStart v p.1, p.2)

/-- Identity workflow over a (source, sink) pair: running the workflow
copies the source into the sink (the `sink := source` example scenario). -/
def identEnv : Env ℚ (ℚ × ℚ) where
  runIteration p := (p.1, p.1)
  evalEnd p := p.2
  setStart v p := (v, p.2)

/-- A workflow over `ℤ` whose sink always moves by `2` past the value the
source was set to: successive observed values always differ by `2`, so it
never converges for any tolerance `≤ 2`. -/
def divergeEnv : Env ℤ ℤ where
  runIteration s := s + 2
  evalEnd s := s
  setStart v _ := v

/-- A stateless workflow over `ℤ` whose sink always evaluates to `7`. -/
def constSinkEnv : Env ℤ Unit where
  runIteration _ := ()
  evalEnd _ := 7
  setStart _ _ := ()

/-- The amended history discipline actually implemented by `execute`:
a normal return and the max-iteration raise store a history truncated to
exactly `current_iteration + 1` observed entries (never padded to the full
`max_iteration` capacity), while the stop raise leaves `self.history`
exactly as it was before `execute` began (the possibly stale `prev`). -/
def historyConsistent (prev : List α) (maxIter : ℕ) : ExecResult α σ → Prop
  | .normal h j _ => h.length = j + 1 ∧ j + 1 ≤ maxIter
  | .stopRequested h _ _ => h = prev
  | .maxIterExceeded h j _ => h.length = j + 1 ∧ j + 1 ≤ maxIter
  | .fuelOut => True

/-! ### Hierarchical variable tree (`vartree.py`)

`VariableTree` instances carry a direction tag `_iotype` (`'in'`, `'out'`
or `None`) exposed through the `iotype` property, and a change-notification
hook (`self._input_trait_modified` registered via `on_trait_change`),
modelled by the `listening` flag.  The children found in `self.__dict__`
are either further `VariableTree` instances or plain leaf values; they are
modelled as a `Forest`, a sibling-linked list of child entries, so that all
operations are plain structural recursions. -/

inductive IOType where
  | iin
  | iout
  | unset
deriving DecidableEq

/-- The children of a node: each entry is a named sub-tree (a nested
`VariableTree` in `self.__dict__`) or a named non-tree leaf value. -/
inductive Forest where
  | empty
  | node (name : String) (dir : IOType) (listening : Bool)
      (children : Forest) (siblings : Forest)
  | leaf (name : String) (val : ℤ) (siblings : Forest)
deriving DecidableEq

/-- A `VariableTree` node: its `_iotype`, whether its notification hook is
currently attached, and its children. -/
structure VarTree where
  dir : IOType
  listening : Bool
  children : Forest
deriving DecidableEq

/-- The recursive part of the `iotype` property setter: `v.iotype = val`
applied to every `VariableTree` entry of `self.__dict__`.  Each application
re-enters the guarded setter, so a child whose direction already equals
`val` is left entirely unmodified (including all of its descendants), and
an updated child gets `listening := (val == in)` — the
`on_trait_change(..., remove = (val != in))` call.  Leaf entries fail the
`isinstance(v, VariableTree)` test and are untouched. -/
def cascade (val : IOType) : Forest → Forest
  | .empty => .empty
  | .node n d l ch sib =>
      if val = d then .node n d l ch (cascade val sib)
      else .node n val (decide (val = IOType.iin)) (cascade val ch) (cascade val sib)
  | .leaf n v sib => .leaf n v (cascade val sib)

/-- The `iotype` property setter on a node: a no-op when the value is
unchanged, otherwise it stores the new direction, attaches the notification
hook exactly when the new direction is `in` (detaches it otherwise), and
cascades the assignment to the children. -/
def set_iotype (val : IOType) (t : VarTree) : VarTree :=
  if val = t.dir then t
  else ⟨val, decide (val = IOType.iin), cascade val t.children⟩

/-- `VariableTree.__init__`: `self._iotype = None` followed by
`self.iotype = iotype` through the setter, on a node with no children yet. -/
def VarTree.init (iotype : IOType) : VarTree :=
  set_iotype iotype ⟨IOType.unset, false, Forest.empty⟩

/-- Every node of the forest carries direction `d`. -/
def forestAllDir (d : IOType) : Forest → Bool
  | .empty => true
  | .node _ d2 _ ch sib => decide (d2 = d) && forestAllDir d ch && forestAllDir d sib
  | .leaf _ _ sib => forestAllDir d sib

/-- No node of the forest carries direction `d`. -/
def forestNoDir (d : IOType) : Forest → Bool
  | .empty => true
  | .node _ d2 _ ch sib => decide (¬ d2 = d) && forestNoDir d ch && forestNoDir d sib
  | .leaf _ _ sib => forestNoDir d sib

/-- Every node of the forest carries direction `d` and has its notification
hook attached exactly when `d` is `in`. -/
def forestAllSet (d : IOType) : Forest → Bool
  | .empty => true
  | .node _ d2 l ch sib =>
      decide (d2 = d) && (l == decide (d = IOType.iin))
        && forestAllSet d ch && forestAllSet d sib
  | .leaf _ _ sib => forestAllSet d sib

/-- Every node of the forest has its notification hook attached exactly
when its own direction is `in` (the `listening` invariant). -/
def forestListens : Forest → Bool
  | .empty => true
  | .node _ d l ch sib =>
      (l == decide (d = IOType.iin)) && forestListens ch && forestListens sib
  | .leaf _ _ sib => forestListens sib

/-- The `listening` invariant for a whole tree: the root and every
descendant node listen exactly when their direction is `in`. -/
def treeListens (t : VarTree) : Bool :=
  (t.listening == decide (t.dir = IOType.iin)) && forestListens t.children

/-- What `self.parent` looks like to `tree_rooted`: a `VariableTree` parent
with its direction, a non-tree parent together with the result of the
`self.parent.trait(self.name)` lookup (`none` when the trait is missing,
`some IOType.unset` when the trait exists but its `iotype` is `None`), or
no parent at all. -/
inductive ParentInfo where
  | vtParent (pdir : IOType)
  | containerParent (traitDir : Option IOType)
  | noParent

/-- `VariableTree.tree_rooted`: on attachment, a node under a
`VariableTree` parent is assigned the parent direction unconditionally
(through the `iotype` setter); under a non-tree parent it is assigned the
declared direction of the corresponding trait when that lookup yields a
truthy `iotype`. -/
def tree_rooted (p : ParentInfo) (t : VarTree) : VarTree :=
  match p with
  | .vtParent pdir => set_iotype pdir t
  | .containerParent (some d) => if ¬ d = IOType.unset then set_iotype d t else t
  | .containerParent none => t
  | .noParent => t

/-- Concrete tree refuting the universal cascade claim: the root is `out`,
its child `d` is already `in`, and the grandchild `g` is `out`.  (Such a
state is reachable through the public API: cascade `out` from the root,
then set `d` to `in` directly, then set `g` back to `out` directly.) -/
def cexTree : VarTree :=
  ⟨IOType.iout, false,
    .node "d" IOType.iin true (.node "g" IOType.iout false .empty .empty) .empty⟩

/-- A small tree none of whose nodes is `in`, for the amended cascade
claim: child `a` is `out` with a non-tree leaf attribute `x` below it. -/
def uniformTree : VarTree :=
  ⟨IOType.unset, false, .node "a" IOType.iout false (.leaf "x" 0 .empty) .empty⟩

/-! ### Change-notification bubbling (`VariableTree._input_trait_modified`)

The handler receives the name of the mutated attribute, walks
`p = p.parent` upward while `p` is a `VariableTree` (remembering the last
tree seen in `vt`), and, when a non-tree parent exists above the root-most
tree, calls that parent handler once, reporting `vt.name` — the name of the
root-most tree — as the originating variable.  The parent chain of the
mutated node is modelled as a list, closest parent first. -/

inductive PNode where
  | vt (name : String)
  | comp (name : String)
deriving DecidableEq

/-- One change event delivered past the root-most tree ancestor:
which non-tree parent received it and under which variable name. -/
structure BubbleEvent where
  receiver : String
  varName : String
deriving DecidableEq

/-- `name.startswith('_')` for the single-character prefix used in the
source: the first character of the attribute name is an underscore. -/
def startswithUnderscore (s : String) : Bool :=
  decide (s.data.head? = some '_')

/-- The `while isinstance(p, VariableTree): vt = p; p = p.parent` walk,
starting from a tree node named `vtName`: returns the name of the root-most
tree of the chain and the name of the first non-tree parent above it, when
one exists. -/
def walkUp (vtName : String) : List PNode → String × Option String
  | [] => (vtName, none)
  | PNode.vt n :: rest => walkUp n rest
  | PNode.comp n :: _ => (vtName, some n)

/-- `VariableTree._input_trait_modified` on a node named `selfName` whose
parent chain is `chain`, fired for attribute `attr`: underscore-prefixed
attributes are ignored; otherwise, if a non-tree parent exists above the
root-most tree ancestor, exactly one event is delivered to it, named after
that root-most tree. -/
def input_trait_modified (selfName : String) (chain : List PNode)
    (attr : String) : List BubbleEvent :=
  if startswithUnderscore attr then []
  else
    match walkUp selfName chain with
    | (_, none) => []
    | (vtName, some p) => [⟨p, vtName⟩]

/-! ### Helper lemmas about the convergence loop -/

/-- Every pass of the loop increments `current_iteration` before it can
break, so a normal (converged) exit reports an iteration strictly greater
than the iteration the loop was entered at. -/
theorem iterLoop_normal_lt (env : Env α σ) (maxIter : ℕ) (tolerance : α)
    (stop : ℕ → Bool) (prev : List α) :
    ∀ (fuel : ℕ) (hist : List α) (curIter : ℕ) (s : σ) (h : List α) (j : ℕ) (s' : σ),
      iterLoop env maxIter tolerance stop prev fuel hist curIter s
        = ExecResult.normal h j s' → curIter < j := by
  intro fuel
  induction fuel with
  | zero =>
    intro hist curIter s h j s' heq
    simp [iterLoop] at heq
  | succ f ih =>
    intro hist curIter s h j s' heq
    simp only [iterLoop] at heq
    split at heq
    · exact absurd heq (by simp)
    · split at heq
      · exact absurd heq (by simp)
      · split at heq
        · cases heq
          omega
        · exact Nat.lt_of_succ_lt (ih _ _ _ _ _ _ heq)

/-- The history discipline of the loop: provided the working array has the
full `max_iteration` capacity and the entry iteration is within budget,
every exit satisfies `historyConsistent`. -/
theorem iterLoop_result_hist (env : Env α σ) (maxIter : ℕ) (tolerance : α)
    (stop : ℕ → Bool) (prev : List α) :
    ∀ (fuel : ℕ) (hist : List α) (curIter : ℕ) (s : σ),
      hist.length = maxIter → curIter < maxIter →
      historyConsistent prev maxIter
        (iterLoop env maxIter tolerance stop prev fuel hist curIter s) := by
  intro fuel
  induction fuel with
  | zero =>
    intro hist curIter s hlen hcur
    simp [iterLoop, historyConsistent]
  | succ f ih =>
    intro hist curIter s hlen hcur
    simp only [iterLoop]
    split
    · simp [historyConsistent]
    · next hmax =>
      split
      · next hle =>
        simp only [historyConsistent, List.length_take]
        omega
      · next hle =>
        split
        · simp only [historyConsistent, List.length_take, List.length_set]
          omega
        · exact ih _ _ _ (by simp [hlen]) (by omega)

/-- A loop whose successive sink values never come within `tolerance` of
each other, and which is never cancelled, runs the workflow once per pass
until the budget check fires: it exits with the max-iteration raise at
iteration `max_iteration - 1`, with a full-capacity stored history, having
run the workflow exactly `maxIter - 1 - curIter` further times. -/
theorem iterLoop_never_conv (env : Env α σ) (maxIter : ℕ) (tolerance : α)
    (stop : ℕ → Bool) (prev : List α)
    (hnc : ∀ (v : α) (st : σ),
      tolerance ≤ |env.evalEnd (env.runIteration (env.setStart v st)) - v|)
    (hstop : ∀ k, stop k = false) :
    ∀ (fuel : ℕ) (curIter : ℕ) (hist : List α) (s : σ) (c : ℕ),
      hist.length = maxIter → curIter < maxIter → maxIter - curIter ≤ fuel →
      ∃ h s', iterLoop (withCount env) maxIter tolerance stop prev fuel hist curIter (s, c)
          = ExecResult.maxIterExceeded h (maxIter - 1) (s', c + (maxIter - 1 - curIter))
        ∧ h.length = maxIter := by
  intro fuel
  induction fuel with
  | zero =>
    intro curIter hist s c hlen hcur hfuel
    omega
  | succ f ih =>
    intro curIter hist s c hlen hcur hfuel
    by_cases hmax : maxIter - 1 ≤ curIter
    · have h1 : curIter = maxIter - 1 := by omega
      have h2 : c + (maxIter - 1 - curIter) = c := by omega
      subst h1
      rw [h2]
      refine ⟨hist.take (maxIter - 1 + 1), s, ?_, ?_⟩
      · simp [iterLoop, hstop]
      · simp [List.length_take]
        omega
    · have hlt : curIter < maxIter - 1 := by omega
      have hval1 : (hist.set (curIter + 1)
            (env.evalEnd (env.runIteration (env.setStart (hist.getD curIter 0) s)))).getD
            (curIter + 1) 0
          = env.evalEnd (env.runIteration (env.setStart (hist.getD curIter 0) s)) := by
        rw [List.getD_eq_getElem?_getD, List.getElem?_set_self (by simp [hlen]; omega)]
        rfl
      obtain ⟨h, s', heq, hlenh⟩ := ih (curIter + 1)
        (hist.set (curIter + 1)
          (env.evalEnd (env.runIteration (env.setStart (hist.getD curIter 0) s))))
        (env.runIteration (env.setStart (hist.getD curIter 0) s)) (c + 1)
        (by simp [hlen]) (by omega) (by omega)
      refine ⟨h, s', ?_, hlenh⟩
      have hcount : (c + 1) + (maxIter - 1 - (curIter + 1)) = c + (maxIter - 1 - curIter) := by
        omega
      rw [hcount] at heq
      calc iterLoop (withCount env) maxIter tolerance stop prev (f + 1) hist curIter (s, c)
          = iterLoop (withCount env) maxIter tolerance stop prev f
              (hist.set (curIter + 1)
                (env.evalEnd (env.runIteration (env.setStart (hist.getD curIter 0) s))))
              (curIter + 1)
              (env.runIteration (env.setStart (hist.getD curIter 0) s), c + 1) := by
            simp only [iterLoop, hstop, Bool.false_eq_true, if_false, withCount]
            rw [if_neg (by omega), if_neg (by rw [hval1]; exact not_lt.mpr (hnc _ _))]
        _ = ExecResult.maxIterExceeded h (maxIter - 1) (s', c + (maxIter - 1 - curIter)) := heq

/-- When the very first loop pass converges, `execute` returns normally at
iteration `1` with exactly the two observed sink values as history. -/
theorem execute_first_step (env : Env α σ) (maxIter : ℕ) (tolerance : α)
    (stop : ℕ → Bool) (prev : List α) (s : σ)
    (h2 : 2 ≤ maxIter) (hstop : stop 0 = false)
    (hconv : |env.evalEnd (env.runIteration
          (env.setStart (env.evalEnd (env.runIteration s)) (env.runIteration s)))
        - env.evalEnd (env.runIteration s)| < tolerance) :
    execute env maxIter tolerance stop prev s
      = ExecResult.normal
          [env.evalEnd (env.runIteration s),
           env.evalEnd (env.runIteration
             (env.setStart (env.evalEnd (env.runIteration s)) (env.runIteration s)))]
          1
          (env.runIteration
            (env.setStart (env.evalEnd (env.runIteration s)) (env.runIteration s))) := by
  obtain ⟨k, rfl⟩ : ∃ k, maxIter = k + 2 := ⟨maxIter - 2, by omega⟩
  show iterLoop env (k + 2) tolerance stop prev (k + 1 + 1) _ 0 _ = _
  simp only [iterLoop, hstop, Bool.false_eq_true, if_false]
  rw [if_neg (by omega)]
  simp only [List.replicate_succ, List.set_cons_zero, List.set_cons_succ,
    List.getD_cons_zero, List.getD_cons_succ]
  rw [if_pos hconv]
  rfl

/-! ### Claim theorems for the convergence driver -/

/-- C1: for every loop pass that reaches its convergence test (cancellation
not requested and the budget check not yet firing), with
`val0 = history[iteration]` read before the pass and `val1` the sink value
read after the workflow run, the driver terminates normally at that very
pass (reporting iteration `curIter + 1`) if and only if
`abs(val1 - val0) < tolerance` (strict); and at that normal termination the
stored history has exactly `(curIter + 1) + 1` entries, the iteration count
after the increment plus one. -/
theorem C1_convergence_step (env : Env α σ) (maxIter : ℕ) (tolerance : α)
    (stop : ℕ → Bool) (prev hist : List α) (curIter : ℕ) (s : σ) (fuel : ℕ)
    (hstop : stop curIter = false) (hmax : curIter + 1 < maxIter)
    (hlen : hist.length = maxIter) :
    ((∃ h s', iterLoop env maxIter tolerance stop prev (fuel + 1) hist curIter s
        = ExecResult.normal h (curIter + 1) s')
      ↔ |env.evalEnd (env.runIteration (env.setStart (hist.getD curIter 0) s))
          - hist.getD curIter 0| < tolerance)
    ∧ ∀ h s', iterLoop env maxIter tolerance stop prev (fuel + 1) hist curIter s
        = ExecResult.normal h (curIter + 1) s' → h.length = (curIter + 1) + 1 := by
  have hval1 : (hist.set (curIter + 1)
        (env.evalEnd (env.runIteration (env.setStart (hist.getD curIter 0) s)))).getD
        (curIter + 1) 0
      = env.evalEnd (env.runIteration (env.setStart (hist.getD curIter 0) s)) := by
    rw [List.getD_eq_getElem?_getD, List.getElem?_set_self (by simp [hlen]; omega)]
    rfl
  have hstep : iterLoop env maxIter tolerance stop prev (fuel + 1) hist curIter s
      = if |env.evalEnd (env.runIteration (env.setStart (hist.getD curIter 0) s))
            - hist.getD curIter 0| < tolerance then
          ExecResult.normal
            ((hist.set (curIter + 1)
              (env.evalEnd (env.runIteration (env.setStart (hist.getD curIter 0) s)))).take
              (curIter + 2))
            (curIter + 1)
            (env.runIteration (env.setStart (hist.getD curIter 0) s))
        else
          iterLoop env maxIter tolerance stop prev fuel
            (hist.set (curIter + 1)
              (env.evalEnd (env.runIteration (env.setStart (hist.getD curIter 0) s))))
            (curIter + 1)
            (env.runIteration (env.setStart (hist.getD curIter 0) s)) := by
    simp only [iterLoop, hstop, Bool.false_eq_true, if_false]
    rw [if_neg (by omega), hval1]
  rw [hstep]
  by_cases hc : |env.evalEnd (env.runIteration (env.setStart (hist.getD curIter 0) s))
      - hist.getD curIter 0| < tolerance
  · rw [if_pos hc]
    refine ⟨⟨fun _ => hc, fun _ => ⟨_, _, rfl⟩⟩, ?_⟩
    intro h s' heq
    cases heq
    simp [List.length_take, List.length_set]
    omega
  · rw [if_neg hc]
    constructor
    · constructor
      · rintro ⟨h, s', heq⟩
        exact absurd (iterLoop_normal_lt env maxIter tolerance stop prev _ _ _ _ _ _ _ heq)
          (by omega)
      · intro hcontra
        exact absurd hcontra hc
    · intro h s' heq
      exact absurd (iterLoop_normal_lt env maxIter tolerance stop prev _ _ _ _ _ _ _ heq)
        (by omega)

/-- Witness for C1 at a concrete input: the diverging integer workflow with
a tolerance of `5` converges on the very first pass from `val0 = 5`. -/
theorem C1_convergence_step_witness :
    ((fun _ : ℕ => false) 0 = false ∧ 0 + 1 < 3 ∧ ([5, 0, 0] : List ℤ).length = 3)
    ∧ (((∃ h s', iterLoop divergeEnv 3 5 (fun _ => false) [] (1 + 1) [5, 0, 0] 0 5
        = ExecResult.normal h (0 + 1) s')
      ↔ |divergeEnv.evalEnd (divergeEnv.runIteration
            (divergeEnv.setStart (([5, 0, 0] : List ℤ).getD 0 0) 5))
          - ([5, 0, 0] : List ℤ).getD 0 0| < 5)
    ∧ ∀ h s', iterLoop divergeEnv 3 5 (fun _ => false) [] (1 + 1) [5, 0, 0] 0 5
        = ExecResult.normal h (0 + 1) s' → h.length = (0 + 1) + 1) :=
  ⟨⟨rfl, by decide, by decide⟩,
    C1_convergence_step divergeEnv 3 5 (fun _ => false) [] [5, 0, 0] 0 5 1
      rfl (by decide) (by decide)⟩

/-- C2 counterexample: with `max_iteration = 2` and the never-converging
integer workflow (successive sink values always differ by `2`, tolerance
`1`), `execute` raises the max-iteration error at iteration `1` — but the
stored history is `[2, 4]`, of length `2 = max_iteration`, not
`max_iteration - 1 = 1` as the claim states. -/
theorem C2_budget_cex :
    execute divergeEnv 2 1 (fun _ => false) [] 0
      = ExecResult.maxIterExceeded [2, 4] 1 4
    ∧ ([2, 4] : List ℤ).length ≠ 2 - 1 := by decide

/-- C2 amended: for every `max_iteration = N ≥ 1` and every workflow whose
successive sink values never come within `tolerance`, `execute` (run under
a workflow-execution counter) raises the max-iteration error with
`iteration_at_failure = N - 1`, having run the workflow exactly `N - 1`
times in the loop in addition to the one unconditional baseline run (final
count `1 + (N - 1)` from `0`), and the stored history has length `N`
(that is, `iteration_at_failure + 1`), not `N - 1`. -/
theorem C2_budget_amended (env : Env α σ) (maxIter : ℕ) (tolerance : α)
    (stop : ℕ → Bool) (prev : List α) (s : σ)
    (hN : 1 ≤ maxIter)
    (hnc : ∀ (v : α) (st : σ),
      tolerance ≤ |env.evalEnd (env.runIteration (env.setStart v st)) - v|)
    (hstop : ∀ k, stop k = false) :
    ∃ h s', execute (withCount env) maxIter tolerance stop prev (s, 0)
        = ExecResult.maxIterExceeded h (maxIter - 1) (s', 1 + (maxIter - 1))
      ∧ h.length = maxIter := by
  obtain ⟨h, s', heq, hlenh⟩ := iterLoop_never_conv env maxIter tolerance stop prev hnc hstop
    maxIter 0
    ((List.replicate maxIter (0 : α)).set 0 (env.evalEnd (env.runIteration s)))
    (env.runIteration s) 1 (by simp) (by omega) (by omega)
  refine ⟨h, s', ?_, hlenh⟩
  have hc : 1 + (maxIter - 1 - 0) = 1 + (maxIter - 1) := by omega
  rw [hc] at heq
  exact heq

/-- Witness for C2 amended at a concrete input: the diverging integer
workflow with tolerance `1` and `max_iteration = 2`. -/
theorem C2_budget_amended_witness :
    ∃ h s', execute (withCount divergeEnv) 2 1 (fun _ => false) [] ((0 : ℤ), 0)
        = ExecResult.maxIterExceeded h (2 - 1) (s', 1 + (2 - 1))
      ∧ h.length = 2 :=
  C2_budget_amended divergeEnv 2 1 (fun _ => false) [] 0 (by decide)
    (fun v st => by simp [divergeEnv, add_sub_cancel_left, abs_two, one_le_two])
    (fun _ => rfl)

/-- C3: if cancellation has been requested at the start of a loop pass, the
loop raises the stop exception at that pass with the external state
untouched (so no workflow execution and no write to the feedback source
endpoint happened in that pass), the stored history left exactly as it was
before `execute` began, and the iteration counter unchanged — and this
holds for every `max_iteration`, so the cancellation check also precedes
the max-iteration check. -/
theorem C3_cancel_first (env : Env α σ) (maxIter : ℕ) (tolerance : α)
    (stop : ℕ → Bool) (prev hist : List α) (fuel curIter : ℕ) (s : σ)
    (hstop : stop curIter = true) :
    iterLoop env maxIter tolerance stop prev (fuel + 1) hist curIter s
      = ExecResult.stopRequested prev curIter s := by
  simp [iterLoop, hstop]

/-- Witness for C3 at a concrete input: a cancelled pass of the integer
workflow returns the pre-execution history `[9]` and the untouched state. -/
theorem C3_cancel_first_witness :
    (fun _ : ℕ => true) 0 = true
    ∧ iterLoop divergeEnv 3 1 (fun _ => true) [9] (0 + 1) [0, 0, 0] 0 0
      = ExecResult.stopRequested [9] 0 0 :=
  ⟨rfl, C3_cancel_first divergeEnv 3 1 (fun _ => true) [9] [0, 0, 0] 0 0 0 rfl⟩

/-- C4 counterexample: the workflow whose sink always reads `7`, cancelled
at the first loop pass, with `self.history = [42]` left over from a
previous execution.  `execute` raises the stop exception with stored
history still `[42]` — a stale value: the only sink value observed during
the current execution is `7`, so the stored history is not the truncated
record of the values observed up to the failing step. -/
theorem C4_history_cex :
    execute constSinkEnv 5 1 (fun _ => true) [42] ()
      = ExecResult.stopRequested [42] 0 ()
    ∧ ([42] : List ℤ) ≠ [7] := by decide

/-- C4 amended: a normal return and the max-iteration raise leave the
stored history truncated to exactly `iteration + 1` observed entries
(never padded to the `max_iteration` capacity), but the stop raise — and
likewise an error propagated from the workflow, which skips the assignment
the same way — leaves the stored history exactly as it was before
`execute` began, possibly a stale record of a previous execution. -/
theorem C4_history_amended (env : Env α σ) (maxIter : ℕ) (tolerance : α)
    (stop : ℕ → Bool) (prev : List α) (s : σ) (hN : 1 ≤ maxIter) :
    historyConsistent prev maxIter (execute env maxIter tolerance stop prev s) :=
  iterLoop_result_hist env maxIter tolerance stop prev maxIter _ 0 _
    (by simp) (by omega)

/-- Witness for C4 amended at a concrete input. -/
theorem C4_history_amended_witness :
    (1 ≤ 2)
    ∧ historyConsistent ([42] : List ℤ) 2 (execute divergeEnv 2 1 (fun _ => false) [42] 0) :=
  ⟨by decide, C4_history_amended divergeEnv 2 1 (fun _ => false) [42] 0 (by decide)⟩

/-- C5: the example scenario — `max_iteration = 25`, `tolerance = 1e-5`,
the identity workflow `sink := source` and initial source value `3.0` —
converges at iteration `1` with final stored history `[3.0, 3.0]`. -/
theorem C5_example_scenario :
    execute identEnv 25 (1 / 100000) (fun _ => false) [] (3, 0)
      = ExecResult.normal [3, 3] 1 (3, 3) := by
  have h := execute_first_step identEnv 25 (1 / 100000) (fun _ => false) [] (3, 0)
    (by norm_num) rfl (by simp [identEnv])
  simpa [identEnv] using h

/-! ### Helper lemmas about the variable tree -/

/-- When no node of a forest already carries direction `val`, the cascade
re-enters the guarded setter on every node, so afterwards every node
carries `val` and listens exactly when `val` is `in`. -/
theorem cascade_allSet (val : IOType) :
    ∀ f : Forest, forestNoDir val f = true → forestAllSet val (cascade val f) = true := by
  intro f
  induction f with
  | empty => intro _; rfl
  | node n d l ch sib ihch ihsib =>
    intro h
    simp only [forestNoDir, Bool.and_eq_true, decide_eq_true_eq] at h
    obtain ⟨⟨hd, hch⟩, hsib⟩ := h
    rw [cascade, if_neg (fun hv => hd hv.symm)]
    simp only [forestAllSet, Bool.and_eq_true, decide_eq_true_eq]
    exact ⟨⟨⟨by trivial, by simp⟩, ihch hch⟩, ihsib hsib⟩
  | leaf n v sib ihsib =>
    intro h
    simp only [forestNoDir] at h
    simpa [cascade, forestAllSet] using ihsib h

/-- The cascade preserves the `listening` invariant on every node of a
forest: nodes it skips keep their consistent flag, nodes it updates get the
flag consistent with the new direction. -/
theorem cascade_listens (val : IOType) :
    ∀ f : Forest, forestListens f = true → forestListens (cascade val f) = true := by
  intro f
  induction f with
  | empty => intro _; rfl
  | node n d l ch sib ihch ihsib =>
    intro h
    simp only [forestListens, Bool.and_eq_true] at h
    obtain ⟨⟨hl, hch⟩, hsib⟩ := h
    rw [cascade]
    split
    · simp only [forestListens, Bool.and_eq_true]
      exact ⟨⟨hl, hch⟩, ihsib hsib⟩
    · simp only [forestListens, Bool.and_eq_true]
      exact ⟨⟨by simp, ihch hch⟩, ihsib hsib⟩
  | leaf n v sib ihsib =>
    intro h
    simp only [forestListens] at h
    simpa [cascade, forestListens] using ihsib h

/-- The `iotype` setter preserves the `listening` invariant of a tree. -/
theorem set_iotype_listens (val : IOType) (t : VarTree) (h : treeListens t = true) :
    treeListens (set_iotype val t) = true := by
  rw [set_iotype]
  split
  · exact h
  · simp only [treeListens, Bool.and_eq_true] at h ⊢
    exact ⟨by simp, cascade_listens val t.children h.2⟩

/-- The `listening` invariant is preserved along any sequence of setter
applications. -/
theorem foldl_listens (vals : List IOType) :
    ∀ t : VarTree, treeListens t = true →
      treeListens (vals.foldl (fun a v => set_iotype v a) t) = true := by
  induction vals with
  | nil => exact fun _ h => h
  | cons v vs ih => exact fun t h => ih _ (set_iotype_listens v t h)

/-- The setter always leaves the node carrying the assigned direction
(`no-op` when it already did). -/
theorem set_iotype_dir (val : IOType) (t : VarTree) : (set_iotype val t).dir = val := by
  rw [set_iotype]
  split
  · next heq => exact heq.symm
  · rfl

/-- The upward walk of the notification handler over a chain consisting of
tree ancestors followed by a non-tree parent: it reports the root-most tree
name and finds that parent. -/
theorem walkUp_append (c : String) (rest : List PNode) :
    ∀ (vtNames : List String) (selfName : String),
      walkUp selfName (vtNames.map PNode.vt ++ PNode.comp c :: rest)
        = (vtNames.getLastD selfName, some c) := by
  intro vtNames
  induction vtNames with
  | nil => intro selfName; rfl
  | cons n ns ih =>
    intro selfName
    rw [List.getLastD_cons]
    simpa [walkUp] using ih n

/-! ### Claim theorems for the variable tree -/

/-- C6 counterexample: on `cexTree` (root `out`, child `d` already `in`,
grandchild `g` `out`) the assignment of the new direction `in` — which does
differ from the current root direction — does not leave every descendant
carrying `in`: the cascade re-enters the guarded setter on `d`, which
no-ops because `d` already carries `in`, so `g` keeps `out`. -/
theorem C6_cascade_cex :
    ¬ IOType.iin = cexTree.dir
    ∧ forestAllDir IOType.iin (set_iotype IOType.iin cexTree).children = false := by
  decide

/-- C6 amended: `set_direction` recurses into the children through the same
guarded setter, so the cascade stops at any child already carrying the new
direction; whenever no node of the subtree already carries the new value
(in particular after a uniform cascade, as in the attach-then-retag
scenario of the spec), every descendant node ends up carrying the new
direction with its listening flag set exactly when the direction is `in`,
and non-tree leaf values are unaffected. -/
theorem C6_cascade_amended (val : IOType) (t : VarTree)
    (hroot : ¬ val = t.dir) (h : forestNoDir val t.children = true) :
    forestAllSet val (set_iotype val t).children = true := by
  rw [set_iotype, if_neg hroot]
  exact cascade_allSet val t.children h

/-- Witness for C6 amended at a concrete input: cascading `in` over a tree
none of whose nodes carries `in`. -/
theorem C6_cascade_amended_witness :
    (¬ IOType.iin = uniformTree.dir ∧ forestNoDir IOType.iin uniformTree.children = true)
    ∧ forestAllSet IOType.iin (set_iotype IOType.iin uniformTree).children = true :=
  ⟨⟨by decide, by decide⟩,
    C6_cascade_amended IOType.iin uniformTree (by decide) (by decide)⟩

/-- C7: after any sequence of setter applications on a tree whose nodes
start with the hook attached exactly when their direction is `in`, every
node still has the hook attached exactly when its direction is `in`; and
each effective direction change attaches the hook when the new direction is
`in` and detaches it for any other value. -/
theorem C7_listening_invariant (vals : List IOType) (t : VarTree) (val : IOType)
    (h : treeListens t = true) (hchange : ¬ val = t.dir) :
    treeListens (vals.foldl (fun a v => set_iotype v a) t) = true
    ∧ (set_iotype val t).listening = decide (val = IOType.iin) := by
  refine ⟨foldl_listens vals t h, ?_⟩
  rw [set_iotype, if_neg hchange]

/-- Witness for C7 at a concrete input: a freshly initialised `out` node,
re-tagged `in` then `out`, keeps the invariant; and an effective change to
`in` attaches the hook. -/
theorem C7_listening_invariant_witness :
    (treeListens (VarTree.init IOType.iout) = true
      ∧ ¬ IOType.iin = (VarTree.init IOType.iout).dir)
    ∧ treeListens ([IOType.iin, IOType.iout].foldl (fun a v => set_iotype v a)
        (VarTree.init IOType.iout)) = true
    ∧ (set_iotype IOType.iin (VarTree.init IOType.iout)).listening
        = decide (IOType.iin = IOType.iin) :=
  ⟨⟨by decide, by decide⟩,
    C7_listening_invariant [IOType.iin, IOType.iout] (VarTree.init IOType.iout)
      IOType.iin (by decide) (by decide)⟩

/-- C8: a mutation of a public (non-underscore) attribute on a tree node
nested under any chain of tree ancestors with a non-tree parent above them
produces exactly one bubbled event past the root-most tree ancestor, and
the event is named for that root-most tree (the top-level structured
variable), not for the mutated node or the full path — regardless of the
nesting depth. -/
theorem C8_bubble_rootmost (selfName attr : String) (vtNames : List String)
    (compName : String) (rest : List PNode)
    (hattr : startswithUnderscore attr = false) :
    input_trait_modified selfName (vtNames.map PNode.vt ++ PNode.comp compName :: rest) attr
      = [⟨compName, vtNames.getLastD selfName⟩] := by
  rw [input_trait_modified, hattr]
  rw [walkUp_append]
  rfl

/-- Witness for C8 at a concrete input: a node `leaf` nested two trees deep
(`mid`, then `top`) under a component `owner`; mutating public attribute
`x` delivers one event to `owner`, named `top`. -/
theorem C8_bubble_rootmost_witness :
    startswithUnderscore "x" = false
    ∧ input_trait_modified "leaf"
        (["mid", "top"].map PNode.vt ++ PNode.comp "owner" :: []) "x"
      = [⟨"owner", (["mid", "top"] : List String).getLastD "leaf"⟩] :=
  ⟨by decide, C8_bubble_rootmost "leaf" "x" ["mid", "top"] "owner" [] (by decide)⟩

/-- C9: assigning a node its current direction is a complete no-op: the
resulting tree is equal to the original, so the direction, the hook
registration state, and every descendant are unchanged — no duplicate
listener registration and no redundant cascade. -/
theorem C9_set_direction_idempotent (t : VarTree) : set_iotype t.dir t = t := by
  simp [set_iotype]

/-- C10: `tree_rooted` under a `VariableTree` parent assigns the parent
direction to the node for every current direction of the node — including
one already set to a different value — and under a non-tree parent whose
trait lookup declares a (truthy) direction, it assigns that declared
direction, likewise unconditionally. -/
theorem C10_tree_rooted_overwrites (pdir d : IOType) (t : VarTree)
    (hd : ¬ d = IOType.unset) :
    (tree_rooted (ParentInfo.vtParent pdir) t).dir = pdir
    ∧ (tree_rooted (ParentInfo.containerParent (some d)) t).dir = d := by
  constructor
  · exact set_iotype_dir pdir t
  · rw [tree_rooted, if_pos hd]
    exact set_iotype_dir d t

/-- Witness for C10 at a concrete input: a node whose direction is already
`in` is overwritten to `out` by a `VariableTree` parent tagged `out`, and
to `out` by a non-tree parent whose trait declares `out`. -/
theorem C10_tree_rooted_overwrites_witness :
    (¬ IOType.iout = IOType.unset)
    ∧ (tree_rooted (ParentInfo.vtParent IOType.iout) (VarTree.init IOType.iin)).dir
        = IOType.iout
    ∧ (tree_rooted (ParentInfo.containerParent (some IOType.iout))
        (VarTree.init IOType.iin)).dir = IOType.iout :=
  ⟨by decide,
    C10_tree_rooted_overwrites IOType.iout IOType.iout (VarTree.init IOType.iin) (by decide)⟩

end Spec2Proof
